import Mathlib

/-!
Verification of the flood-dashboard analytics pipeline
(fetch_data.py, fetch_historical.py, compare_p90_roc.py,
process_gauge_data.py, main.py) against its specification.

The pandas dataframes are embedded as lists of records; float columns
become `Option ℚ` (with `none` standing for NaN/NaT) except where a
computation can produce IEEE infinities, in which case the extended
type `NFloat` below is used.  All definitions follow the Python source.
-/

/-- Extended numeric value mirroring a numpy float64 result:
either NaN, +inf, -inf, or a finite value (modelled as a rational). -/
inductive NFloat where
  | nan : NFloat
  | pinf : NFloat
  | ninf : NFloat
  | val : ℚ → NFloat
deriving DecidableEq, Repr

namespace NFloat

/-- Embed a nullable column entry (`none` = NaN) into `NFloat`. -/
def ofOpt : Option ℚ → NFloat
  | none => nan
  | some q => val q

/-- numpy subtraction on finite-or-NaN operands (infinities propagate). -/
def sub : NFloat → NFloat → NFloat
  | nan, _ => nan
  | _, nan => nan
  | val a, val b => val (a - b)
  | pinf, ninf => pinf
  | pinf, pinf => nan
  | pinf, val _ => pinf
  | ninf, pinf => ninf
  | ninf, ninf => nan
  | ninf, val _ => ninf
  | val _, pinf => ninf
  | val _, ninf => pinf

/-- numpy division: division by zero yields a signed infinity
(or NaN for 0/0); NaN propagates. -/
def div : NFloat → NFloat → NFloat
  | nan, _ => nan
  | _, nan => nan
  | val a, val b =>
      if b = 0 then
        (if 0 < a then pinf else if a < 0 then ninf else nan)
      else val (a / b)
  | pinf, val b => if 0 ≤ b then pinf else ninf
  | ninf, val b => if 0 ≤ b then ninf else pinf
  | val _, pinf => val 0
  | val _, ninf => val 0
  | pinf, pinf => nan
  | pinf, ninf => nan
  | ninf, pinf => nan
  | ninf, ninf => nan

/-- numpy multiplication (NaN propagates, inf * 0 = NaN). -/
def mul : NFloat → NFloat → NFloat
  | nan, _ => nan
  | _, nan => nan
  | val a, val b => val (a * b)
  | pinf, val b => if 0 < b then pinf else if b < 0 then ninf else nan
  | ninf, val b => if 0 < b then ninf else if b < 0 then pinf else nan
  | val a, pinf => if 0 < a then pinf else if a < 0 then ninf else nan
  | val a, ninf => if 0 < a then ninf else if a < 0 then pinf else nan
  | pinf, pinf => pinf
  | pinf, ninf => ninf
  | ninf, pinf => ninf
  | ninf, ninf => pinf

end NFloat

/-! ## Calendar model

Timestamps are civil UTC date-times: a (year, month, day) date plus a
minute-of-day.  This is what `pd.to_datetime(..., utc=True)` yields; the
`dt.dayofyear` accessor and the `tz_convert("US/Eastern")` conversion used
by the source are defined below. -/

/-- A civil calendar date. -/
structure Date where
  year : ℤ
  month : ℕ
  day : ℕ
deriving DecidableEq, Repr

/-- A UTC instant: civil date plus minute of day (0 ≤ minute < 1440). -/
structure DateTime where
  date : Date
  minute : ℕ
deriving DecidableEq, Repr

/-- Gregorian leap-year rule. -/
def isLeap (y : ℤ) : Bool :=
  (y % 4 = 0 && y % 100 ≠ 0) || y % 400 = 0

/-- Number of days in a month. -/
def monthLength (y : ℤ) (m : ℕ) : ℕ :=
  match m with
  | 1 => 31
  | 2 => if isLeap y then 29 else 28
  | 3 => 31
  | 4 => 30
  | 5 => 31
  | 6 => 30
  | 7 => 31
  | 8 => 31
  | 9 => 30
  | 10 => 31
  | 11 => 30
  | _ => 31

/-- 1-based ordinal day within the year (`dt.dayofyear`). -/
def dayOfYear (d : Date) : ℕ :=
  (List.range (d.month - 1)).foldl (fun a k => a + monthLength d.year (k + 1)) 0 + d.day

/-- Days since 1970-01-01 of a civil date (Gregorian, proleptic). -/
def daysFromCivil (dt : Date) : ℤ :=
  let y : ℤ := if dt.month ≤ 2 then dt.year - 1 else dt.year
  let era : ℤ := (if 0 ≤ y then y else y - 399) / 400
  let yoe : ℤ := y - era * 400
  let mp : ℤ := ((dt.month : ℤ) + 9) % 12
  let doy : ℤ := (153 * mp + 2) / 5 + (dt.day : ℤ) - 1
  let doe : ℤ := yoe * 365 + yoe / 4 - yoe / 100 + doy
  era * 146097 + doe - 719468

/-- Absolute minutes since the 1970-01-01T00:00Z epoch. -/
def absMinutes (t : DateTime) : ℤ :=
  daysFromCivil t.date * 1440 + (t.minute : ℤ)

/-- Day of week, Sunday = 0 (1970-01-01 was a Thursday). -/
def weekday (d : Date) : ℤ :=
  (daysFromCivil d + 4) % 7

/-- Day of month of the first Sunday of the given month. -/
def firstSundayDay (y : ℤ) (m : ℕ) : ℤ :=
  1 + ((7 - weekday ⟨y, m, 1⟩) % 7)

/-- US/Eastern DST in effect at a UTC instant: from 07:00 UTC on the
second Sunday of March (2:00 EST) to 06:00 UTC on the first Sunday of
November (2:00 EDT) — the post-2007 rule used by the tz database. -/
def inEasternDST (t : DateTime) : Bool :=
  let y := t.date.year
  let startMin := (daysFromCivil ⟨y, 3, 1⟩ + (firstSundayDay y 3 - 1) + 7) * 1440 + 7 * 60
  let endMin := (daysFromCivil ⟨y, 11, 1⟩ + (firstSundayDay y 11 - 1)) * 1440 + 6 * 60
  startMin ≤ absMinutes t && absMinutes t < endMin

/-- Minutes that US/Eastern lags UTC at the given instant. -/
def easternLagMinutes (t : DateTime) : ℕ :=
  if inEasternDST t then 240 else 300

/-- The previous calendar day. -/
def prevDate (d : Date) : Date :=
  if 1 < d.day then ⟨d.year, d.month, d.day - 1⟩
  else if 1 < d.month then ⟨d.year, d.month - 1, monthLength d.year (d.month - 1)⟩
  else ⟨d.year - 1, 12, 31⟩

/-- Local civil date after `tz_convert("US/Eastern")` (`.dt.date`):
subtracting the Eastern lag crosses at most one day boundary. -/
def easternLocalDate (t : DateTime) : Date :=
  if t.minute < easternLagMinutes t then prevDate t.date else t.date

/-- Day of year as assigned by `fetch_historical.compute_p90_by_day`
(lines 120-124): convert the UTC timestamp to US/Eastern, take the
local date, then its ordinal day. -/
def dayOfYearEastern (t : DateTime) : ℕ :=
  dayOfYear (easternLocalDate t)

/-- Day of year as assigned by `compare_p90_roc.prepare_current_data`
(line 79): `dt.dayofyear` on the UTC timestamp directly, no timezone
conversion. -/
def dayOfYearUTC (t : DateTime) : ℕ :=
  dayOfYear t.date

/-! ## Baseline Builder — `fetch_historical.compute_p90_by_day` -/

namespace FetchHistorical

/-- One historical daily sample, as assembled by `fetch_va_dv_chunk`:
site number, timestamp (the `date` column, parsed UTC), and flow value
(`none` models a NaN flow). -/
structure HistRow where
  site : ℕ
  ts : DateTime
  flow : Option ℚ
deriving DecidableEq, Repr

/-- One output row of the baseline artifact `historical_p90.csv`. -/
structure BaselineRow where
  site : ℕ
  doy : ℕ
  p90 : Option ℚ
deriving DecidableEq, Repr

/-- Insert into a sorted list (ascending). -/
def insertSorted (x : ℚ) : List ℚ → List ℚ
  | [] => [x]
  | y :: ys => if x ≤ y then x :: y :: ys else y :: insertSorted x ys

/-- Sort ascending (the order statistics used by `quantile`). -/
def sortAsc (xs : List ℚ) : List ℚ :=
  xs.foldr insertSorted []

/-- `Series.quantile(0.9)` with the default linear ("R-7") interpolation:
`h = (n-1)*0.9`, result `x[⌊h⌋] + (h-⌊h⌋)*(x[⌊h⌋+1]-x[⌊h⌋])` over the
sorted non-null values; NaN (`none`) on an empty/all-NaN group. -/
def quantile90 (xs : List ℚ) : Option ℚ :=
  if xs.isEmpty then none
  else
    let ys := sortAsc xs
    let n := ys.length
    let f : ℕ := ((n - 1) * 9) / 10
    let h : ℚ := (((n : ℚ) - 1) * 9) / 10
    some (ys.getD f 0 + (h - (f : ℚ)) * (ys.getD (f + 1) (ys.getD f 0) - ys.getD f 0))

/-- `day_of_year` column of the historical frame (lines 120-124):
timestamp parsed as UTC, converted to US/Eastern, local date taken,
then `dayofyear`. -/
def rowDoy (r : HistRow) : ℕ :=
  dayOfYearEastern r.ts

/-- The non-null flow values of one `(site, day_of_year)` group. -/
def siteDayFlows (df : List HistRow) (s d : ℕ) : List ℚ :=
  df.filterMap (fun r => if r.site = s ∧ rowDoy r = d then r.flow else none)

/-- First non-null entry of a series, with its position. -/
def firstSome : List (Option ℚ) → Option (ℕ × ℚ)
  | [] => none
  | some v :: _ => some (0, v)
  | none :: rest => (firstSome rest).map (fun p => (p.1 + 1, p.2))

/-- First non-null entry at position ≥ `i`, with its position. -/
def nextSomeFrom (s : List (Option ℚ)) (i : ℕ) : Option (ℕ × ℚ) :=
  (firstSome (s.drop i)).map (fun p => (i + p.1, p.2))

/-- Last non-null entry at position < `i`, with its position. -/
def lastSomeBefore (s : List (Option ℚ)) : ℕ → Option (ℕ × ℚ)
  | 0 => none
  | i + 1 =>
    match s[i]? with
    | some (some v) => some (i, v)
    | _ => lastSomeBefore s i

/-- One position of `Series.interpolate(method="linear")` (default
forward limit direction): a NaN with a previous valid value is filled —
linearly when a later valid value exists, else with the previous value
(trailing fill); leading NaNs stay NaN. -/
def interpolate1 (s : List (Option ℚ)) (i : ℕ) : Option ℚ :=
  match s[i]? with
  | some (some v) => some v
  | _ =>
    match lastSomeBefore s i, nextSomeFrom s (i + 1) with
    | some (j, a), some (k, b) => some (a + (b - a) * (((i : ℚ) - (j : ℚ)) / ((k : ℚ) - (j : ℚ))))
    | some (_, a), none => some a
    | none, _ => none

/-- `Series.interpolate(method="linear")`. -/
def pdInterpolate (s : List (Option ℚ)) : List (Option ℚ) :=
  (List.range s.length).map (interpolate1 s)

/-- `Series.bfill()`: fill each NaN with the next valid value. -/
def pdBfill (s : List (Option ℚ)) : List (Option ℚ) :=
  (List.range s.length).map (fun i =>
    match s[i]? with
    | some (some v) => some v
    | _ => (nextSomeFrom s i).map Prod.snd)

/-- `Series.ffill()`: fill each NaN with the previous valid value. -/
def pdFfill (s : List (Option ℚ)) : List (Option ℚ) :=
  (List.range s.length).map (fun i =>
    match s[i]? with
    | some (some v) => some v
    | _ => (lastSomeBefore s i).map Prod.snd)

/-- Lines 146-150: interpolate, then bfill, then ffill, then replace an
all-NaN series by zeros. -/
def fillP90 (xs : List (Option ℚ)) : List (Option ℚ) :=
  let s := pdFfill (pdBfill (pdInterpolate xs))
  if s.all (fun o => o = none) then List.replicate xs.length (some 0) else s

/-- Whether a site has at least one non-null flow sample
(`site_counts[site] > 0`, lines 127-128). -/
def siteValid (df : List HistRow) (s : ℕ) : Bool :=
  df.any (fun r => r.site = s && r.flow.isSome)

/-- Loop body of lines 140-155 for one site: the per-day 0.9 quantiles
reindexed to the full 1..365 domain, filled, and turned into baseline
rows. -/
def siteBlock (df2 : List HistRow) (s : ℕ) : List BaselineRow :=
  let merged := (List.range 365).map (fun i => quantile90 (siteDayFlows df2 s (i + 1)))
  List.zipWith (fun i v => BaselineRow.mk s (i + 1) v) (List.range 365) (fillP90 merged)

/-- `compute_p90_by_day` (lines 108-163): drop sites with zero non-null
samples, group the rest by `(site, day_of_year)` and take the 0.9
quantile, reindex each site to days 1..365, fill, and concatenate. -/
def compute_p90_by_day (df : List HistRow) : List BaselineRow :=
  let df2 := df.filter (fun r => siteValid df r.site)
  let sites := (df2.map (fun r => r.site)).dedup
  sites.flatMap (siteBlock df2)

end FetchHistorical

/-! ## Classifier/Merger and bulk ROC — `compare_p90_roc.py` -/

namespace CompareP90Roc

/-- `Series.shift(w)`: prepend `w` NaNs and drop the tail. -/
def pdShift (w : ℕ) (xs : List (Option ℚ)) : List (Option ℚ) :=
  (List.replicate w none ++ xs).take xs.length

/-- The elementwise expression `(x - x.shift(window)) / x.shift(window) * 100`
of `compute_rate_of_change` (line 49), with numpy float semantics. -/
def pctExpr (cur prev : Option ℚ) : NFloat :=
  NFloat.mul (NFloat.div (NFloat.sub (NFloat.ofOpt cur) (NFloat.ofOpt prev)) (NFloat.ofOpt prev))
    (NFloat.val 100)

/-- Per-site `pct_change` column for one window: the readings of one
site, sorted ascending by timestamp, transformed by `pctExpr` against
the series shifted by `w` positions. -/
def rocSeries (w : ℕ) (xs : List (Option ℚ)) : List NFloat :=
  List.zipWith pctExpr xs (pdShift w xs)

/-- The ROC window sizes (line 35): 12/36/72 samples for 1h/3h/6h. -/
def WINDOWS : List ℕ := [12, 36, 72]

/-- A current reading as read from `north_va.csv`/`south_va.csv`:
`none` models NaN/NaT after the coercing parse. -/
structure RawCur where
  site : Option ℕ
  ts : Option DateTime
  flow : Option ℚ
deriving DecidableEq, Repr

/-- A current reading after `prepare_current_data`. -/
structure PrepRow where
  site : Option ℕ
  ts : Option DateTime
  flow : Option ℚ
  doy : Option ℕ
deriving DecidableEq, Repr

/-- `prepare_current_data` (lines 75-81): `day_of_year` is taken from
the UTC timestamp (`dt.dayofyear`, no timezone conversion), then rows
with a null `day_of_year`, `flow_cfs` or `site_no` are dropped. -/
def prepare_current_data (df : List RawCur) : List PrepRow :=
  (df.map (fun r => PrepRow.mk r.site r.ts r.flow (r.ts.map dayOfYearUTC))).filter
    (fun r => r.doy.isSome && r.flow.isSome && r.site.isSome)

/-- A row of the baseline artifact as read back from
`historical_p90.csv`. -/
structure HistCsvRow where
  site : ℕ
  doy : ℕ
  p90 : ℚ
deriving DecidableEq, Repr

/-- A classified output record of `compare_to_historical`. -/
structure Classified where
  site : Option ℕ
  ts : Option DateTime
  flow : Option ℚ
  p90 : Option ℚ
  ratio : Option ℚ
  high_flow : Bool
deriving DecidableEq, Repr

/-- Ratio and flag of one merged record (lines 107-111):
`ratio = flow_cfs / p90_flow_cfs`, overwritten with NaN where
`p90_flow_cfs` is NaN or zero; `high_flow = ratio >= 1.0` (false on
NaN). -/
def classifyOne (flow : Option ℚ) (p90 : Option ℚ) : Option ℚ × Bool :=
  let ratio : Option ℚ :=
    if p90 = none ∨ p90 = some 0 then none
    else match flow, p90 with
      | some f, some p => some (f / p)
      | _, _ => none
  (ratio, match ratio with
    | some q => 1 ≤ q
    | none => false)

/-- One output record built from a prepared reading and its joined
`p90` value. -/
def classifyRow (c : PrepRow) (p : Option ℚ) : Classified :=
  Classified.mk c.site c.ts c.flow p (classifyOne c.flow p).1 (classifyOne c.flow p).2

/-- `compare_to_historical` (lines 84-124): left-join the prepared
current readings to the baseline on `(site_no, day_of_year)` — an
unmatched row keeps `p90 = none`, a row with several baseline matches
is duplicated per match — then compute `ratio` and `high_flow`. -/
def compare_to_historical (cur : List PrepRow) (hist : List HistCsvRow) : List Classified :=
  cur.flatMap (fun c =>
    if (hist.filter (fun h => some h.site = c.site ∧ some h.doy = c.doy)).isEmpty
    then [classifyRow c none]
    else (hist.filter (fun h => some h.site = c.site ∧ some h.doy = c.doy)).map
      (fun h => classifyRow c (some h.p90)))

end CompareP90Roc

/-! ## Latest-value pipeline — `process_gauge_data.py` -/

namespace ProcessGaugeData

/-- One row of `gauge_data.csv` (timestamps always parse; flow may be
NaN). -/
structure GRow where
  site : ℕ
  ts : DateTime
  flow : Option ℚ
deriving DecidableEq, Repr

/-- Target instant of the 3h lookback for one site's group (line 37):
the last row's timestamp minus 3 hours, in absolute minutes.  The frame
is pre-sorted ascending by timestamp, so the last row is the latest
reading. -/
def groupTarget (g : List GRow) : ℤ :=
  match g.getLast? with
  | some l => absMinutes l.ts - 180
  | none => 0

/-- The `time_diff` column (line 40): absolute distance in minutes from
the target instant. -/
def timeDiff (g : List GRow) (k : ℕ) : ℤ :=
  match g[k]? with
  | some r => |absMinutes r.ts - groupTarget g|
  | none => 0

/-- Positions passing the 30-minute tolerance mask (line 41). -/
def maskIdx (g : List GRow) : List ℕ :=
  (List.range g.length).filter (fun k => timeDiff g k ≤ 30)

/-- One step of the running argmin: keep the current best position,
replacing it only on a strictly smaller distance (so ties keep the
earlier position, as `Series.argmin` does). -/
def argminStep (g : List GRow) (acc : Option ℕ) (k : ℕ) : Option ℕ :=
  match acc with
  | none => some k
  | some b => if timeDiff g k < timeDiff g b then some k else acc

/-- `Series.argmin` over the masked positions: the first position
attaining the minimal time distance. -/
def argminFirst (g : List GRow) (l : List ℕ) : Option ℕ :=
  l.foldl (argminStep g) none

/-- `compute_pct_change_3h` for one site's group (lines 29-54): if some
reading lies within 30 minutes of (latest − 3h), take the closest one
(first on ties) and return `(latest - candidate) / candidate * 100`,
NaN when the candidate's value is zero or an operand is NaN; NaN when
no reading is within tolerance. -/
def compute_pct_change_3h (g : List GRow) : Option ℚ :=
  match g.getLast? with
  | none => none
  | some latest =>
    match argminFirst g (maskIdx g) with
    | none => none
    | some j =>
      match (g.getD j latest).flow with
      | some v => if v = 0 then none else latest.flow.map (fun f => (f - v) / v * 100)
      | none => none

/-- One output record of `gauge_data_processed.csv`. -/
structure PGRec where
  site : ℕ
  ts : DateTime
  flow : Option ℚ
  pct3h : Option ℚ
  p90 : Option ℚ
  ratio : NFloat
deriving DecidableEq, Repr

/-- `groupby('site_no').last()` on the flow column: the last non-null
entry of the group. -/
def lastFlow (g : List GRow) : Option ℚ :=
  (g.filterMap (fun r => r.flow)).getLast?

/-- The module body of `process_gauge_data.py` (lines 60-80): per site,
take the latest row, the 3h nearest-neighbor ROC, `day_of_year` from the
latest UTC timestamp, left-join `historical_p90.csv` on
`(site_no, day_of_year)`, and compute `ratio = flow_cfs / p90_flow_cfs`
with no null/zero guard (numpy division). -/
def processGauge (gauge : List GRow) (hist : List CompareP90Roc.HistCsvRow) : List PGRec :=
  let sites := (gauge.map (fun r => r.site)).dedup
  sites.flatMap (fun s =>
    let g := gauge.filter (fun r => r.site = s)
    match g.getLast? with
    | none => []
    | some lastRow =>
      let flow := lastFlow g
      let pct3 := compute_pct_change_3h g
      let doy := dayOfYearUTC lastRow.ts
      let ms := hist.filter (fun h => h.site = s ∧ h.doy = doy)
      let mk : Option ℚ → PGRec := fun p =>
        PGRec.mk s lastRow.ts flow pct3 p (NFloat.div (NFloat.ofOpt flow) (NFloat.ofOpt p))
      if ms.isEmpty then [mk none] else ms.map (fun h => mk (some h.p90)))

end ProcessGaugeData

/-! ## Trend classification — `main.build_map.color_logic` -/

namespace MainApp

/-- `color_logic` (main.py lines 50-58): gray for a missing 3h ROC,
brown for ≤ 0, red for > 25, blue otherwise. -/
def color_logic (x : Option ℚ) : String :=
  match x with
  | none => "#808080"
  | some v => if v ≤ 0 then "#A18F65" else if 25 < v then "#942719" else "#5279A8"

end MainApp

/-! ## Reading Store — `fetch_data.append_and_trim` -/

namespace FetchData

/-- A stored reading of `gauge_data.csv`. -/
structure FRow where
  site : ℕ
  ts : DateTime
  flow : Option ℚ
deriving DecidableEq, Repr

/-- `append_and_trim` (lines 98-119): concatenate the persisted rows
with the new ones and keep only rows with timestamp at or after
`now - hours`. -/
def append_and_trim (df_old df_new : List FRow) (now : DateTime) (hours : ℕ) : List FRow :=
  (df_old ++ df_new).filter (fun r => absMinutes now - (hours : ℤ) * 60 ≤ absMinutes r.ts)

end FetchData

/-! ## Supporting lemmas -/

namespace CompareP90Roc

theorem length_pdShift (w : ℕ) (xs : List (Option ℚ)) :
    (pdShift w xs).length = xs.length := by
  simp [pdShift]

theorem pdShift_getElem?_lt (w : ℕ) (xs : List (Option ℚ)) (t : ℕ)
    (ht : t < xs.length) (htw : t < w) : (pdShift w xs)[t]? = some none := by
  simp [pdShift, List.getElem?_take, List.getElem?_append, ht, htw,
    List.getElem_append_left, List.getElem_replicate]

theorem pdShift_getElem?_ge (w : ℕ) (xs : List (Option ℚ)) (t : ℕ)
    (ht : t < xs.length) (htw : w ≤ t) : (pdShift w xs)[t]? = xs[t - w]? := by
  have h2 : t - w < xs.length := by omega
  simp only [pdShift, List.getElem?_take, List.getElem?_append, ht, if_pos ht,
    List.length_replicate, Nat.not_lt_of_le htw, if_neg (Nat.not_lt_of_le htw),
    List.getElem?_eq_getElem h2]
  simp

theorem rocSeries_getElem? (w : ℕ) (xs : List (Option ℚ)) (t : ℕ)
    (p : Option ℚ) (hp : (pdShift w xs)[t]? = some p)
    (c : Option ℚ) (hc : xs[t]? = some c) :
    (rocSeries w xs)[t]? = some (pctExpr c p) := by
  rw [rocSeries, List.getElem?_zipWith, hp, hc]

end CompareP90Roc

namespace CompareP90Roc

theorem compare_mem_elim (cs : List PrepRow) (hist : List HistCsvRow) (r : Classified)
    (hr : r ∈ compare_to_historical cs hist) :
    ∃ c ∈ cs, ∃ p : Option ℚ, r = classifyRow c p := by
  rw [compare_to_historical, List.mem_flatMap] at hr
  obtain ⟨c, hc, hrc⟩ := hr
  refine ⟨c, hc, ?_⟩
  split at hrc
  · exact ⟨none, by simpa using hrc⟩
  · obtain ⟨h, _, rfl⟩ := List.mem_map.mp hrc
    exact ⟨some h.p90, rfl⟩

theorem prepare_mem_elim (cur : List RawCur) (c : PrepRow)
    (hc : c ∈ prepare_current_data cur) :
    (∃ raw ∈ cur, c = PrepRow.mk raw.site raw.ts raw.flow (raw.ts.map dayOfYearUTC))
    ∧ c.doy ≠ none ∧ c.flow ≠ none ∧ c.site ≠ none := by
  rw [prepare_current_data, List.mem_filter] at hc
  obtain ⟨hmem, hprops⟩ := hc
  simp only [Bool.and_eq_true, Option.isSome_iff_ne_none] at hprops
  exact ⟨List.mem_map.mp hmem |>.elim (fun raw h => ⟨raw, h.1, h.2.symm⟩),
    hprops.1.1, hprops.1.2, hprops.2⟩

end CompareP90Roc

namespace ProcessGaugeData

theorem argminFirst_go (g : List GRow) (j : ℕ) (l : List ℕ) :
    ∀ acc : Option ℕ,
      (∀ k ∈ l, k ≠ j → timeDiff g j < timeDiff g k) →
      (acc = some j
        ∨ ((acc = none ∨ ∃ b, acc = some b ∧ timeDiff g j < timeDiff g b) ∧ j ∈ l)) →
      l.foldl (argminStep g) acc = some j := by
  induction l with
  | nil =>
    intro acc _ hacc
    rcases hacc with rfl | ⟨_, hj⟩
    · rfl
    · cases hj
  | cons k l ih =>
    intro acc hmin hacc
    rw [List.foldl_cons]
    apply ih _ (fun k2 hk2 => hmin k2 (List.mem_cons_of_mem _ hk2))
    rcases hacc with rfl | ⟨hopt, hjmem⟩
    · by_cases hkj : k = j
      · subst hkj
        left
        simp [argminStep]
      · left
        have hd := hmin k (List.mem_cons_self k l) hkj
        simp [argminStep, not_lt_of_gt hd]
    · rcases hopt with rfl | ⟨b, rfl, hb⟩
      · by_cases hkj : k = j
        · subst hkj
          left
          rfl
        · right
          refine ⟨Or.inr ⟨k, rfl, hmin k (List.mem_cons_self k l) hkj⟩, ?_⟩
          exact (List.mem_cons.mp hjmem).resolve_left (fun h => hkj h.symm)
      · by_cases hkj : k = j
        · subst hkj
          left
          simp [argminStep, hb]
        · right
          refine ⟨Or.inr ?_, (List.mem_cons.mp hjmem).resolve_left (fun h => hkj h.symm)⟩
          by_cases hkb : timeDiff g k < timeDiff g b
          · exact ⟨k, by simp [argminStep, hkb], hmin k (List.mem_cons_self k l) hkj⟩
          · exact ⟨b, by simp [argminStep, hkb], hb⟩

theorem mem_maskIdx (g : List GRow) (j : ℕ) :
    j ∈ maskIdx g ↔ j < g.length ∧ timeDiff g j ≤ 30 := by
  simp [maskIdx, List.mem_filter, List.mem_range]

end ProcessGaugeData

namespace FetchHistorical

theorem length_pdInterpolate (s : List (Option ℚ)) : (pdInterpolate s).length = s.length := by
  simp [pdInterpolate]

theorem length_pdBfill (s : List (Option ℚ)) : (pdBfill s).length = s.length := by
  simp [pdBfill]

theorem length_pdFfill (s : List (Option ℚ)) : (pdFfill s).length = s.length := by
  simp [pdFfill]

theorem length_fillP90 (xs : List (Option ℚ)) : (fillP90 xs).length = xs.length := by
  rw [fillP90]
  split
  · simp
  · simp [length_pdFfill, length_pdBfill, length_pdInterpolate]

theorem pdInterpolate_getElem? (s : List (Option ℚ)) (i : ℕ) (h : i < s.length) :
    (pdInterpolate s)[i]? = some (interpolate1 s i) := by
  simp [pdInterpolate, List.getElem?_range, h]

theorem pdBfill_getElem? (s : List (Option ℚ)) (i : ℕ) (h : i < s.length) :
    (pdBfill s)[i]? = some (match s[i]? with
      | some (some v) => some v
      | _ => (nextSomeFrom s i).map Prod.snd) := by
  simp only [pdBfill, List.getElem?_map, List.getElem?_range, h, if_pos h]
  rfl

theorem pdFfill_getElem? (s : List (Option ℚ)) (i : ℕ) (h : i < s.length) :
    (pdFfill s)[i]? = some (match s[i]? with
      | some (some v) => some v
      | _ => (lastSomeBefore s i).map Prod.snd) := by
  simp only [pdFfill, List.getElem?_map, List.getElem?_range, h, if_pos h]
  rfl

theorem firstSome_isSome (s : List (Option ℚ)) (k : ℕ) (v : ℚ)
    (h : s[k]? = some (some v)) : (firstSome s).isSome := by
  induction s generalizing k with
  | nil => simp at h
  | cons a s ih =>
    cases a with
    | some w => simp [firstSome]
    | none =>
      cases k with
      | zero => simp at h
      | succ k =>
        simp only [List.getElem?_cons_succ] at h
        simpa [firstSome] using ih k h

theorem nextSomeFrom_isSome (s : List (Option ℚ)) (i k : ℕ) (v : ℚ)
    (hik : i ≤ k) (h : s[k]? = some (some v)) : (nextSomeFrom s i).isSome := by
  have hd : (s.drop i)[k - i]? = some (some v) := by
    rw [List.getElem?_drop, Nat.add_sub_cancel' hik]
    exact h
  simpa [nextSomeFrom] using firstSome_isSome _ _ _ hd

theorem lastSomeBefore_eq_none (s : List (Option ℚ)) (i : ℕ)
    (h : lastSomeBefore s i = none) :
    ∀ j, j < i → ∀ v : ℚ, s[j]? ≠ some (some v) := by
  induction i with
  | zero => omega
  | succ i ih =>
    intro j hj v
    cases hsi : s[i]? with
    | none =>
      simp only [lastSomeBefore, hsi] at h
      rcases Nat.lt_succ_iff_lt_or_eq.mp hj with hj2 | rfl
      · exact ih h j hj2 v
      · simp [hsi]
    | some o =>
      cases o with
      | none =>
        simp only [lastSomeBefore, hsi] at h
        rcases Nat.lt_succ_iff_lt_or_eq.mp hj with hj2 | rfl
        · exact ih h j hj2 v
        · simp [hsi]
      | some w => simp [lastSomeBefore, hsi] at h

theorem interpolate1_of_some (s : List (Option ℚ)) (i : ℕ) (v : ℚ)
    (h : s[i]? = some (some v)) : interpolate1 s i = some v := by
  simp [interpolate1, h]

theorem interpolate1_none_elim (s : List (Option ℚ)) (i : ℕ)
    (h : interpolate1 s i = none) :
    lastSomeBefore s i = none ∧ ∀ v : ℚ, s[i]? ≠ some (some v) := by
  constructor
  · by_contra hlast
    obtain ⟨⟨j, a⟩, hja⟩ := Option.ne_none_iff_exists.mp hlast
    cases hsi : s[i]? with
    | none =>
      simp only [interpolate1, hsi, ← hja] at h
      cases hnext : nextSomeFrom s (i + 1) <;> simp [hnext] at h
    | some o =>
      cases o with
      | none =>
        simp only [interpolate1, hsi, ← hja] at h
        cases hnext : nextSomeFrom s (i + 1) <;> simp [hnext] at h
      | some w => simp [interpolate1, hsi] at h
  · intro v hv
    rw [interpolate1_of_some s i v hv] at h
    cases h

theorem fill_chain_some (xs : List (Option ℚ)) (j : ℕ) (v : ℚ)
    (hjv : xs[j]? = some (some v)) (i : ℕ) (hi : i < xs.length) :
    ∃ w : ℚ, (pdFfill (pdBfill (pdInterpolate xs)))[i]? = some (some w) := by
  have hj : j < xs.length := by
    by_contra hj
    rw [List.getElem?_eq_none (by omega)] at hjv
    cases hjv
  have hiA : i < (pdInterpolate xs).length := by rwa [length_pdInterpolate]
  have hiB : i < (pdBfill (pdInterpolate xs)).length := by
    rwa [length_pdBfill, length_pdInterpolate]
  cases hint : interpolate1 xs i with
  | some w =>
    have hA : (pdInterpolate xs)[i]? = some (some w) := by
      rw [pdInterpolate_getElem? xs i hi, hint]
    have hB : (pdBfill (pdInterpolate xs))[i]? = some (some w) := by
      rw [pdBfill_getElem? _ i hiA, hA]
    refine ⟨w, ?_⟩
    rw [pdFfill_getElem? _ i hiB, hB]
  | none =>
    obtain ⟨hlast, hnv⟩ := interpolate1_none_elim xs i hint
    have hij : i < j := by
      rcases Nat.lt_trichotomy i j with h | rfl | h
      · exact h
      · exact absurd hjv (hnv v)
      · exact absurd hjv (lastSomeBefore_eq_none xs i hlast j h v)
    have hAj : (pdInterpolate xs)[j]? = some (some v) := by
      rw [pdInterpolate_getElem? xs j hj, interpolate1_of_some xs j v hjv]
    have hnext : (nextSomeFrom (pdInterpolate xs) i).isSome :=
      nextSomeFrom_isSome _ i j v (Nat.le_of_lt hij) hAj
    obtain ⟨⟨k, w⟩, hkw⟩ := Option.isSome_iff_exists.mp hnext
    have hA : (pdInterpolate xs)[i]? = some none := by
      rw [pdInterpolate_getElem? xs i hi, hint]
    have hB : (pdBfill (pdInterpolate xs))[i]? = some (some w) := by
      rw [pdBfill_getElem? _ i hiA, hA, hkw]
      rfl
    refine ⟨w, ?_⟩
    rw [pdFfill_getElem? _ i hiB, hB]

theorem lastSomeBefore_of_all_none (s : List (Option ℚ)) (hall : ∀ o ∈ s, o = none)
    (i : ℕ) : lastSomeBefore s i = none := by
  induction i with
  | zero => rfl
  | succ i ih =>
    cases hsi : s[i]? with
    | none => simp [lastSomeBefore, hsi, ih]
    | some o =>
      have ho : o = none := hall o (List.getElem?_mem hsi)
      subst ho
      simp [lastSomeBefore, hsi, ih]

theorem firstSome_of_all_none (s : List (Option ℚ)) (hall : ∀ o ∈ s, o = none) :
    firstSome s = none := by
  induction s with
  | nil => rfl
  | cons a s ih =>
    have ha : a = none := hall a (List.mem_cons_self a s)
    subst ha
    simp [firstSome, ih (fun o ho => hall o (List.mem_cons_of_mem _ ho))]

theorem fill_chain_all_none (xs : List (Option ℚ)) (hall : ∀ o ∈ xs, o = none) :
    ∀ o ∈ pdFfill (pdBfill (pdInterpolate xs)), o = none := by
  have hx : ∀ i : ℕ, ∀ v : ℚ, xs[i]? ≠ some (some v) := by
    intro i v hiv
    have := hall (some v) (List.getElem?_mem hiv)
    cases this
  have hA : ∀ o ∈ pdInterpolate xs, o = none := by
    intro o ho
    obtain ⟨i, hi⟩ := List.mem_iff_getElem?.mp ho
    have hilen : i < xs.length := by
      by_contra h2
      rw [List.getElem?_eq_none (by rw [length_pdInterpolate]; omega)] at hi
      cases hi
    rw [pdInterpolate_getElem? xs i hilen] at hi
    have hio : interpolate1 xs i = o := by injection hi
    cases ho2 : interpolate1 xs i with
    | none => rw [ho2] at hio; exact hio.symm
    | some w =>
      exfalso
      cases hsi : xs[i]? with
      | none => simp [interpolate1, hsi, lastSomeBefore_of_all_none xs hall] at ho2
      | some o2 =>
        have : o2 = none := hall o2 (List.getElem?_mem hsi)
        subst this
        simp [interpolate1, hsi, lastSomeBefore_of_all_none xs hall] at ho2
  have hB : ∀ o ∈ pdBfill (pdInterpolate xs), o = none := by
    intro o ho
    obtain ⟨i, hi⟩ := List.mem_iff_getElem?.mp ho
    have hilen : i < (pdInterpolate xs).length := by
      by_contra h2
      rw [List.getElem?_eq_none (by rw [length_pdBfill]; omega)] at hi
      cases hi
    rw [pdBfill_getElem? _ i hilen] at hi
    cases hsi : (pdInterpolate xs)[i]? with
    | none =>
      rw [hsi] at hi
      have : nextSomeFrom (pdInterpolate xs) i = none := by
        rw [nextSomeFrom, firstSome_of_all_none]
        · rfl
        · exact fun o2 ho2 => hA o2 (List.mem_of_mem_drop ho2)
      rw [this] at hi
      injection hi with hi2
      exact hi2.symm
    | some o2 =>
      have : o2 = none := hA o2 (List.getElem?_mem hsi)
      subst this
      rw [hsi] at hi
      have : nextSomeFrom (pdInterpolate xs) i = none := by
        rw [nextSomeFrom, firstSome_of_all_none]
        · rfl
        · exact fun o3 ho3 => hA o3 (List.mem_of_mem_drop ho3)
      rw [this] at hi
      injection hi with hi2
      exact hi2.symm
  intro o ho
  obtain ⟨i, hi⟩ := List.mem_iff_getElem?.mp ho
  have hilen : i < (pdBfill (pdInterpolate xs)).length := by
    by_contra h2
    rw [List.getElem?_eq_none (by rw [length_pdFfill]; omega)] at hi
    cases hi
  rw [pdFfill_getElem? _ i hilen] at hi
  have hlsb : lastSomeBefore (pdBfill (pdInterpolate xs)) i = none :=
    lastSomeBefore_of_all_none _ hB i
  cases hsi : (pdBfill (pdInterpolate xs))[i]? with
  | none =>
    rw [hsi, hlsb] at hi
    injection hi with hi2
    exact hi2.symm
  | some o2 =>
    have : o2 = none := hB o2 (List.getElem?_mem hsi)
    subst this
    rw [hsi, hlsb] at hi
    injection hi with hi2
    exact hi2.symm

theorem fillP90_forall_ne_none (xs : List (Option ℚ)) :
    ∀ v ∈ fillP90 xs, v ≠ none := by
  intro v hv
  rw [fillP90] at hv
  split at hv
  · have hv2 : v = some 0 := List.eq_of_mem_replicate hv
    simp [hv2]
  · rename_i hcond
    have hex : ∃ o ∈ pdFfill (pdBfill (pdInterpolate xs)), o ≠ none := by
      by_contra hno
      push_neg at hno
      apply hcond
      rw [List.all_eq_true]
      intro o ho
      simpa using hno o ho
    have hxs : ∃ j : ℕ, ∃ w : ℚ, xs[j]? = some (some w) := by
      by_contra hno
      push_neg at hno
      obtain ⟨o, ho, hone⟩ := hex
      apply hone
      apply fill_chain_all_none xs _ o ho
      intro o2 ho2
      cases o2 with
      | none => rfl
      | some w =>
        obtain ⟨j, hj⟩ := List.mem_iff_getElem?.mp ho2
        exact absurd hj (hno j w)
    obtain ⟨j, w, hjw⟩ := hxs
    obtain ⟨i, hi⟩ := List.mem_iff_getElem?.mp hv
    have hilen : i < xs.length := by
      by_contra h2
      rw [List.getElem?_eq_none (by rw [length_pdFfill, length_pdBfill, length_pdInterpolate]; omega)] at hi
      cases hi
    obtain ⟨w2, hw2⟩ := fill_chain_some xs j w hjw i hilen
    rw [hw2] at hi
    injection hi with hi2
    rw [← hi2]
    simp

theorem of_mem_zipWith {α β γ : Type} {f : α → β → γ} {as : List α} {bs : List β}
    {c : γ} (hc : c ∈ List.zipWith f as bs) : ∃ a ∈ as, ∃ b ∈ bs, c = f a b := by
  induction as generalizing bs with
  | nil => simp at hc
  | cons a as ih =>
    cases bs with
    | nil => simp at hc
    | cons b bs =>
      rw [List.zipWith_cons_cons] at hc
      rcases List.mem_cons.mp hc with rfl | h
      · exact ⟨a, List.mem_cons_self a as, b, List.mem_cons_self b bs, rfl⟩
      · obtain ⟨a2, ha, b2, hb, rfl⟩ := ih h
        exact ⟨a2, List.mem_cons_of_mem _ ha, b2, List.mem_cons_of_mem _ hb, rfl⟩

theorem zipWith_left_map {α β γ : Type} (f : α → γ) (as : List α) (bs : List β)
    (h : as.length ≤ bs.length) :
    List.zipWith (fun a _ => f a) as bs = as.map f := by
  induction as generalizing bs with
  | nil => simp
  | cons a as ih =>
    cases bs with
    | nil => simp at h
    | cons b bs =>
      rw [List.zipWith_cons_cons, List.map_cons, ih bs (by simpa using h)]

theorem siteBlock_length (df2 : List HistRow) (s : ℕ) :
    (siteBlock df2 s).length = 365 := by
  simp [siteBlock, List.length_zipWith, length_fillP90]

theorem siteBlock_site (df2 : List HistRow) (s : ℕ) (r : BaselineRow)
    (hr : r ∈ siteBlock df2 s) : r.site = s := by
  rw [siteBlock] at hr
  obtain ⟨i, _, v, _, rfl⟩ := of_mem_zipWith hr
  rfl

theorem siteBlock_doy (df2 : List HistRow) (s : ℕ) :
    (siteBlock df2 s).map (fun r => r.doy) = (List.range 365).map (fun i => i + 1) := by
  rw [siteBlock, List.map_zipWith]
  exact zipWith_left_map _ _ _ (by simp [length_fillP90])

theorem siteBlock_p90_ne_none (df2 : List HistRow) (s : ℕ) (r : BaselineRow)
    (hr : r ∈ siteBlock df2 s) : r.p90 ≠ none := by
  rw [siteBlock] at hr
  obtain ⟨i, _, v, hv, rfl⟩ := of_mem_zipWith hr
  exact fillP90_forall_ne_none _ v hv

theorem siteBlock_ne_nil (df2 : List HistRow) (s : ℕ) : siteBlock df2 s ≠ [] := by
  intro h
  have := siteBlock_length df2 s
  rw [h] at this
  simp at this

theorem mem_output_sites (df : List HistRow) (s : ℕ) :
    s ∈ (compute_p90_by_day df).map (fun r => r.site)
      ↔ s ∈ ((df.filter (fun r => siteValid df r.site)).map (fun r => r.site)).dedup := by
  rw [compute_p90_by_day]
  constructor
  · intro h
    obtain ⟨r, hr, rfl⟩ := List.mem_map.mp h
    obtain ⟨s2, hs2, hrs2⟩ := List.mem_flatMap.mp hr
    rw [siteBlock_site _ s2 r hrs2]
    exact hs2
  · intro h
    obtain ⟨r, hr⟩ := List.exists_mem_of_ne_nil _ (siteBlock_ne_nil (df.filter (fun r => siteValid df r.site)) s)
    refine List.mem_map.mpr ⟨r, List.mem_flatMap.mpr ⟨s, h, hr⟩, ?_⟩
    exact siteBlock_site _ s r hr

theorem flatMap_filter_block (df2 : List HistRow) (l : List ℕ) (s : ℕ)
    (hnd : l.Nodup) (hs : s ∈ l) :
    (l.flatMap (siteBlock df2)).filter (fun r => r.site = s) = siteBlock df2 s := by
  induction l with
  | nil => cases hs
  | cons a l ih =>
    rw [List.flatMap_cons, List.filter_append]
    rcases List.mem_cons.mp hs with rfl | hsl
    · have h1 : (siteBlock df2 s).filter (fun r => r.site = s) = siteBlock df2 s :=
        List.filter_eq_self.mpr (fun r hr => by simp [siteBlock_site df2 s r hr])
      have h2 : (l.flatMap (siteBlock df2)).filter (fun r => r.site = s) = [] := by
        rw [List.filter_eq_nil_iff]
        intro r hr
        obtain ⟨s2, hs2, hrs2⟩ := List.mem_flatMap.mp hr
        have hne : s2 ≠ s := fun h => (List.nodup_cons.mp hnd).1 (h ▸ hs2)
        simp [siteBlock_site df2 s2 r hrs2, hne]
      rw [h1, h2, List.append_nil]
    · have has : a ≠ s := fun h => (List.nodup_cons.mp hnd).1 (h ▸ hsl)
      have h1 : (siteBlock df2 a).filter (fun r => r.site = s) = [] := by
        rw [List.filter_eq_nil_iff]
        intro r hr
        simp [siteBlock_site df2 a r hr, has]
      rw [h1, List.nil_append]
      exact ih (List.nodup_cons.mp hnd).2 hsl

end FetchHistorical

/-! ## Claims -/

/-- C1: the spec claims the Classifier computes `day_of_year` from the
timestamp converted to the site's local (US/Eastern) calendar, the same
convention as the Baseline Builder; `fetch_historical.py`'s own
docstring asserts the same alignment.  The code disagrees: for the
reading timestamped 2024-01-02T01:00Z, `prepare_current_data` assigns
day 2 (raw UTC date) while the baseline convention assigns day 1
(2024-01-01 in US/Eastern). -/
theorem doy_convention_mismatch :
    (CompareP90Roc.prepare_current_data
        [⟨some 1, some ⟨⟨2024, 1, 2⟩, 60⟩, some 5⟩]).map (fun r => r.doy) = [some 2]
    ∧ FetchHistorical.rowDoy ⟨1, ⟨⟨2024, 1, 2⟩, 60⟩, some 5⟩ = 1 := by
  constructor <;> decide

/-- C8: `color_logic` is a closed deterministic partition of the 3h ROC
value: null maps to gray ("missing"), values ≤ 0 to brown
("stable/declining"), values in (0, 25] to blue ("moderate rise") — in
particular exactly 25 — and values > 25 to red ("sharp rise"). -/
theorem trend_bands (v : ℚ) :
    MainApp.color_logic none = "#808080"
    ∧ (v ≤ 0 → MainApp.color_logic (some v) = "#A18F65")
    ∧ (0 < v → v ≤ 25 → MainApp.color_logic (some v) = "#5279A8")
    ∧ (25 < v → MainApp.color_logic (some v) = "#942719") := by
  refine ⟨rfl, fun h => ?_, fun h1 h2 => ?_, fun h => ?_⟩ <;>
    simp only [MainApp.color_logic]
  · rw [if_pos h]
  · rw [if_neg (by linarith), if_neg (by linarith)]
  · rw [if_neg (by linarith), if_pos h]

theorem trend_bands_witness :
    MainApp.color_logic (some 25) = "#5279A8"
    ∧ MainApp.color_logic (some 26) = "#942719" := by
  exact ⟨(trend_bands 25).2.2.1 (by norm_num) (by norm_num),
         (trend_bands 26).2.2.2 (by norm_num)⟩

/-- C9: after `append_and_trim` merges the persisted readings with the
new ones under a 24-hour horizon, every surviving reading's timestamp
is at or after `now - 24h`, whatever old and new readings were
supplied. -/
theorem retention_trim (dfOld dfNew : List FetchData.FRow) (now : DateTime)
    (r : FetchData.FRow) (hr : r ∈ FetchData.append_and_trim dfOld dfNew now 24) :
    absMinutes now - 24 * 60 ≤ absMinutes r.ts := by
  rw [FetchData.append_and_trim, List.mem_filter] at hr
  have h := hr.2
  simp only [decide_eq_true_eq] at h
  exact_mod_cast h

open CompareP90Roc in
/-- C10: before the join, the Classifier drops every current reading
whose flow value, site identifier, or parsed timestamp (hence
`day_of_year`) is null, so every classified output record carries a
non-null flow, site, and timestamp even though the columns are
nullable. -/
theorem classified_flow_nonnull (cur : List RawCur) (hist : List HistCsvRow)
    (r : Classified) (hr : r ∈ compare_to_historical (prepare_current_data cur) hist) :
    r.flow ≠ none ∧ r.site ≠ none ∧ r.ts ≠ none := by
  obtain ⟨c, hc, p, rfl⟩ := compare_mem_elim _ _ _ hr
  obtain ⟨⟨raw, _, hceq⟩, hdoy, hflow, hsite⟩ := prepare_mem_elim _ _ hc
  refine ⟨hflow, hsite, ?_⟩
  subst hceq
  simpa [Option.map_eq_none] using hdoy

theorem classified_flow_nonnull_witness :
    (CompareP90Roc.Classified.mk (some 2) (some ⟨⟨2024, 1, 2⟩, 60⟩) (some 3) none none false
        ∈ CompareP90Roc.compare_to_historical
          (CompareP90Roc.prepare_current_data [⟨some 2, some ⟨⟨2024, 1, 2⟩, 60⟩, some 3⟩]) [])
    ∧ (CompareP90Roc.Classified.mk (some 2) (some ⟨⟨2024, 1, 2⟩, 60⟩) (some 3) none none
        false).flow ≠ none := by
  have hm : CompareP90Roc.Classified.mk (some 2) (some ⟨⟨2024, 1, 2⟩, 60⟩) (some 3) none none
      false ∈ CompareP90Roc.compare_to_historical
        (CompareP90Roc.prepare_current_data [⟨some 2, some ⟨⟨2024, 1, 2⟩, 60⟩, some 3⟩]) [] := by
    decide
  exact ⟨hm, (classified_flow_nonnull _ _ _ hm).1⟩

open CompareP90Roc in
/-- C2 (amended): in the `compare_p90_roc` path the claim holds — for
every classified output record, `ratio` is null iff `p90_flow` is null
or zero, and `high_flow` is true iff the ratio exists and is ≥ 1 (false
when the ratio is null).  The `process_gauge_data` path violates the
claim (see the counterexample): its ratio is the unguarded quotient,
which is +inf when `p90 = 0` and the flow is positive, and it computes
no `high_flow` at all. -/
theorem ratio_nullity_classifier (cur : List RawCur) (hist : List HistCsvRow)
    (r : Classified) (hr : r ∈ compare_to_historical (prepare_current_data cur) hist) :
    (r.ratio = none ↔ r.p90 = none ∨ r.p90 = some 0)
    ∧ (r.high_flow = true ↔ ∃ q : ℚ, r.ratio = some q ∧ 1 ≤ q) := by
  obtain ⟨c, hc, p, rfl⟩ := compare_mem_elim _ _ _ hr
  obtain ⟨_, _, hflow, _⟩ := prepare_mem_elim _ _ hc
  obtain ⟨f, hf⟩ := Option.ne_none_iff_exists.mp hflow
  rcases p with _ | q
  · simp [classifyRow, classifyOne]
  · by_cases hq : q = 0
    · subst hq
      simp [classifyRow, classifyOne]
    · simp [classifyRow, classifyOne, hq, ← hf]

theorem ratio_nullity_classifier_witness :
    (CompareP90Roc.Classified.mk (some 1) (some ⟨⟨2024, 1, 2⟩, 60⟩) (some 5) none none false
        ∈ CompareP90Roc.compare_to_historical
          (CompareP90Roc.prepare_current_data [⟨some 1, some ⟨⟨2024, 1, 2⟩, 60⟩, some 5⟩]) [])
    ∧ ((CompareP90Roc.Classified.mk (some 1) (some ⟨⟨2024, 1, 2⟩, 60⟩) (some 5) none none
          false).ratio = none
        ↔ (CompareP90Roc.Classified.mk (some 1) (some ⟨⟨2024, 1, 2⟩, 60⟩) (some 5) none none
          false).p90 = none
          ∨ (CompareP90Roc.Classified.mk (some 1) (some ⟨⟨2024, 1, 2⟩, 60⟩) (some 5) none none
          false).p90 = some 0) := by
  have hm : CompareP90Roc.Classified.mk (some 1) (some ⟨⟨2024, 1, 2⟩, 60⟩) (some 5) none none
      false ∈ CompareP90Roc.compare_to_historical
        (CompareP90Roc.prepare_current_data [⟨some 1, some ⟨⟨2024, 1, 2⟩, 60⟩, some 5⟩]) [] := by
    decide
  exact ⟨hm, (ratio_nullity_classifier _ _ _ hm).1⟩

open CompareP90Roc in
/-- C4: in bulk/offset mode, whenever the reading exactly `w` positions
earlier in the site's sorted series is present and nonzero, the
`pct_change` at position `t` is `(v[t] - v[t-w]) / v[t-w] * 100` — an
index-offset lookup, not a time-based one. -/
theorem roc_offset_formula (xs : List (Option ℚ)) (w t : ℕ) (p c : ℚ)
    (hw : w ≤ t) (ht : t < xs.length)
    (hp : xs[t - w]? = some (some p)) (hp0 : p ≠ 0)
    (hc : xs[t]? = some (some c)) :
    (rocSeries w xs)[t]? = some (NFloat.val ((c - p) / p * 100)) := by
  rw [rocSeries_getElem? w xs t (some p)
    (by rw [pdShift_getElem?_ge w xs t ht hw]; exact hp) (some c) hc]
  simp [pctExpr, NFloat.ofOpt, NFloat.sub, NFloat.div, NFloat.mul, hp0]

/-- Witness for C4: the spec's own example — series `[10, 12, 15, 20]`
with window 1 gives `(20-15)/15*100 = 100/3` at the last position. -/
theorem roc_offset_formula_witness :
    (CompareP90Roc.rocSeries 1 [some 10, some 12, some 15, some 20])[3]?
      = some (NFloat.val ((20 - 15) / 15 * 100))
    ∧ ((20 - 15 : ℚ) / 15 * 100 = 100 / 3) := by
  refine ⟨?_, by norm_num⟩
  exact roc_offset_formula [some 10, some 12, some 15, some 20] 1 3 15 20
    (by decide) (by decide) (by decide) (by norm_num) (by decide)

/-- C3 counterexample: the claim says a zero reading `w` positions
earlier yields a null `pct_change`; in fact the pandas expression
divides by zero and produces +inf, which is not NaN.  Concretely, for
the series `[0, 10]` with window 1 the value at position 1 is +inf. -/
theorem roc_zero_denominator_counterexample :
    (CompareP90Roc.rocSeries 1 [some 0, some 10])[1]? = some NFloat.pinf
    ∧ NFloat.pinf ≠ NFloat.nan := by
  refine ⟨?_, by decide⟩
  norm_num [CompareP90Roc.rocSeries, CompareP90Roc.pdShift, CompareP90Roc.pctExpr,
    NFloat.ofOpt, NFloat.sub, NFloat.div, NFloat.mul]

open CompareP90Roc in
/-- C3 (amended): a missing reading `w` positions earlier yields a null
`pct_change`; a zero reading there yields +inf when the current value
is positive, -inf when negative, and NaN only when it is zero — never
an exception, but not null as claimed. -/
theorem roc_guard_amended (xs : List (Option ℚ)) (w t : ℕ) (ht : t < xs.length) :
    ((pdShift w xs)[t]? = some none → (rocSeries w xs)[t]? = some NFloat.nan)
    ∧ (∀ c : ℚ, (pdShift w xs)[t]? = some (some 0) → xs[t]? = some (some c) →
        (rocSeries w xs)[t]? =
          some (if 0 < c then NFloat.pinf else if c < 0 then NFloat.ninf else NFloat.nan)) := by
  constructor
  · intro hp
    obtain ⟨c, hc⟩ : ∃ c, xs[t]? = some c := by
      rw [List.getElem?_eq_getElem ht]; exact ⟨_, rfl⟩
    rw [rocSeries_getElem? w xs t none hp c hc]
    cases c <;> simp [pctExpr, NFloat.ofOpt, NFloat.sub, NFloat.div, NFloat.mul]
  · intro c hp hc
    rw [rocSeries_getElem? w xs t (some 0) hp (some c) hc]
    rcases lt_trichotomy c 0 with h | rfl | h
    · simp [pctExpr, NFloat.ofOpt, NFloat.sub, NFloat.div, NFloat.mul, h,
        not_lt.mpr h.le]
    · simp [pctExpr, NFloat.ofOpt, NFloat.sub, NFloat.div, NFloat.mul]
    · simp [pctExpr, NFloat.ofOpt, NFloat.sub, NFloat.div, NFloat.mul, h]

theorem roc_guard_amended_witness :
    (CompareP90Roc.rocSeries 1 [some 5])[0]? = some NFloat.nan
    ∧ (CompareP90Roc.rocSeries 2 [some 0, some 4, some 10])[2]? = some NFloat.pinf := by
  constructor
  · exact (roc_guard_amended [some 5] 1 0 (by decide)).1 (by decide)
  · have h := (roc_guard_amended [some 0, some 4, some 10] 2 2 (by decide)).2 10
      (by decide) (by decide)
    simpa using h

open ProcessGaugeData in
/-- C5: in nearest-neighbor mode, for a site group sorted ascending by
timestamp with last (latest) row `latest`: if no reading lies within 30
minutes of `latest − 3h` the 3h `pct_change` is null; if position `j`
is within tolerance and strictly closest to the target among the
in-tolerance readings, then a zero value there yields null, and a
nonzero value `v` yields `(latest - v) / v * 100`. -/
theorem pct3h_nearest_neighbor (g : List GRow) (latest : GRow)
    (hsort : g.Pairwise (fun a b => absMinutes a.ts ≤ absMinutes b.ts))
    (hlast : g.getLast? = some latest) :
    ((∀ k, k < g.length → ¬ timeDiff g k ≤ 30) → compute_pct_change_3h g = none)
    ∧ (∀ j, j < g.length → timeDiff g j ≤ 30 →
        (∀ k, k < g.length → k ≠ j → timeDiff g k ≤ 30 → timeDiff g j < timeDiff g k) →
        ∀ fj, g[j]? = some fj →
          ((fj.flow = some 0 → compute_pct_change_3h g = none)
            ∧ (∀ v f, fj.flow = some v → v ≠ 0 → latest.flow = some f →
                compute_pct_change_3h g = some ((f - v) / v * 100)))) := by
  constructor
  · intro hno
    have hmask : maskIdx g = [] := by
      rw [maskIdx, List.filter_eq_nil_iff]
      intro k hk
      simpa using hno k (List.mem_range.mp hk)
    simp only [compute_pct_change_3h, hlast, hmask, argminFirst, List.foldl_nil]
  · intro j hj hjin hmin fj hfj
    have hargmin : argminFirst g (maskIdx g) = some j := by
      apply argminFirst_go g j (maskIdx g) none
      · intro k hk hkj
        obtain ⟨hk1, hk2⟩ := (mem_maskIdx g k).mp hk
        exact hmin k hk1 hkj hk2
      · exact Or.inr ⟨Or.inl rfl, (mem_maskIdx g j).mpr ⟨hj, hjin⟩⟩
    have hget : g.getD j latest = fj := by
      rw [List.getD_eq_getElem?_getD, hfj]
      rfl
    constructor
    · intro h0
      simp only [compute_pct_change_3h, hlast, hargmin, hget, h0, if_pos rfl, ite_true]
    · intro v f hv hvne hf
      simp only [compute_pct_change_3h, hlast, hargmin, hget, hv, if_neg hvne, hf,
        Option.map_some']

/-- Witness for C5: the spec's example — latest reading at 12:00 with
value 50, candidate at 09:10 with value 40 (10 minutes from the 09:00
target), giving `(50-40)/40*100 = 25`. -/
theorem pct3h_nearest_neighbor_witness :
    ProcessGaugeData.compute_pct_change_3h
        [⟨1, ⟨⟨2024, 6, 15⟩, 550⟩, some 40⟩, ⟨1, ⟨⟨2024, 6, 15⟩, 720⟩, some 50⟩]
      = some ((50 - 40) / 40 * 100)
    ∧ ((50 - 40 : ℚ) / 40 * 100 = 25) := by
  refine ⟨?_, by norm_num⟩
  exact ((pct3h_nearest_neighbor
      [⟨1, ⟨⟨2024, 6, 15⟩, 550⟩, some 40⟩, ⟨1, ⟨⟨2024, 6, 15⟩, 720⟩, some 50⟩]
      ⟨1, ⟨⟨2024, 6, 15⟩, 720⟩, some 50⟩ (by decide) (by decide)).2
    0 (by decide) (by decide) (by decide)
    ⟨1, ⟨⟨2024, 6, 15⟩, 550⟩, some 40⟩ (by decide)).2 40 50 (by decide) (by decide) (by decide)

/-- C2 counterexample: in the `process_gauge_data` path the ratio is
computed with no guard, so a record with `p90_flow = 0` and a nonzero
flow gets ratio +inf, not null; and no `high_flow` field is produced at
all.  Concretely: one gauge row (site 1, 2024-01-02T01:00Z, flow 5)
joined against a baseline row with `p90 = 0` for that site and day. -/
theorem ratio_guard_pgd_counterexample :
    ∃ r ∈ ProcessGaugeData.processGauge [⟨1, ⟨⟨2024, 1, 2⟩, 60⟩, some 5⟩] [⟨1, 2, 0⟩],
      r.p90 = some 0 ∧ r.flow = some 5 ∧ r.ratio = NFloat.pinf ∧ r.ratio ≠ NFloat.nan := by
  decide

theorem retention_trim_witness :
    (FetchData.FRow.mk 1 ⟨⟨2024, 1, 1⟩, 30⟩ (some 1)
        ∈ FetchData.append_and_trim [⟨1, ⟨⟨2024, 1, 1⟩, 30⟩, some 1⟩] [] ⟨⟨2024, 1, 2⟩, 0⟩ 24)
    ∧ absMinutes ⟨⟨2024, 1, 2⟩, 0⟩ - 24 * 60
        ≤ absMinutes (⟨⟨2024, 1, 1⟩, 30⟩ : DateTime) := by
  refine ⟨by decide, ?_⟩
  exact retention_trim [⟨1, ⟨⟨2024, 1, 1⟩, 30⟩, some 1⟩] [] ⟨⟨2024, 1, 2⟩, 0⟩
    ⟨1, ⟨⟨2024, 1, 1⟩, 30⟩, some 1⟩ (by decide)

open FetchHistorical in
/-- C6: every site present in the baseline output has exactly 365 rows
whose `day_of_year` values are precisely 1..365 in order (no gaps), and
none of its `p90_flow` values is null. -/
theorem baseline_density (df : List HistRow) (s : ℕ)
    (hs : s ∈ (compute_p90_by_day df).map (fun r => r.site)) :
    ((compute_p90_by_day df).filter (fun r => r.site = s)).map (fun r => r.doy)
        = (List.range 365).map (fun i => i + 1)
    ∧ ((compute_p90_by_day df).filter (fun r => r.site = s)).length = 365
    ∧ ∀ r ∈ compute_p90_by_day df, r.site = s → r.p90 ≠ none := by
  have hnd : (((df.filter (fun r => siteValid df r.site)).map (fun r => r.site)).dedup).Nodup :=
    List.nodup_dedup _
  have hsm := (mem_output_sites df s).mp hs
  have hfil : (compute_p90_by_day df).filter (fun r => r.site = s)
      = siteBlock (df.filter (fun r => siteValid df r.site)) s := by
    rw [compute_p90_by_day]
    exact flatMap_filter_block _ _ s hnd hsm
  refine ⟨?_, ?_, ?_⟩
  · rw [hfil, siteBlock_doy]
  · rw [hfil, siteBlock_length]
  · intro r hr hrs
    rw [compute_p90_by_day] at hr
    obtain ⟨s2, _, hrs2⟩ := List.mem_flatMap.mp hr
    exact siteBlock_p90_ne_none _ s2 r hrs2

theorem baseline_density_witness :
    (1 ∈ (FetchHistorical.compute_p90_by_day
        [⟨1, ⟨⟨2024, 1, 2⟩, 600⟩, some 5⟩]).map (fun r => r.site))
    ∧ ((FetchHistorical.compute_p90_by_day [⟨1, ⟨⟨2024, 1, 2⟩, 600⟩, some 5⟩]).filter
        (fun r => r.site = 1)).length = 365 := by
  have hs : 1 ∈ (FetchHistorical.compute_p90_by_day
      [⟨1, ⟨⟨2024, 1, 2⟩, 600⟩, some 5⟩]).map (fun r => r.site) :=
    (FetchHistorical.mem_output_sites _ 1).mpr (by decide)
  exact ⟨hs, (baseline_density [⟨1, ⟨⟨2024, 1, 2⟩, 600⟩, some 5⟩] 1 hs).2.1⟩

open FetchHistorical in
/-- C7: a site appears in the baseline output exactly when it has at
least one non-null historical flow sample — sites with zero valid
samples are dropped entirely, all others are retained. -/
theorem baseline_exclusion (df : List HistRow) (s : ℕ) :
    s ∈ (compute_p90_by_day df).map (fun r => r.site)
      ↔ ∃ r ∈ df, r.site = s ∧ r.flow ≠ none := by
  rw [mem_output_sites, List.mem_dedup]
  constructor
  · intro h
    obtain ⟨r, hr, rfl⟩ := List.mem_map.mp h
    obtain ⟨hrdf, hval⟩ := List.mem_filter.mp hr
    rw [siteValid, List.any_eq_true] at hval
    obtain ⟨r2, hr2, hprop⟩ := hval
    simp only [Bool.and_eq_true, decide_eq_true_eq, Option.isSome_iff_ne_none] at hprop
    exact ⟨r2, hr2, hprop.1, hprop.2⟩
  · rintro ⟨r, hr, hsite, hflow⟩
    refine List.mem_map.mpr ⟨r, List.mem_filter.mpr ⟨hr, ?_⟩, hsite⟩
    rw [siteValid, List.any_eq_true]
    refine ⟨r, hr, ?_⟩
    simp [hsite, Option.isSome_iff_ne_none, hflow]
